import Mathlib

/-!
Shallow embedding of `src/lib/packagers/index.js` of serverless-webpack:
the packager factory (`exports.get`) and the artifact packaging pipeline
(`zip`, `serverlessZip`, `getArtifactLocations`, `copyArtifactByName`,
`setArtifactPath`, `setServiceArtifactPath`, `copyExistingArtifacts`).

Filesystem state is modelled as lists of path strings; the host plugin
instance (`this`) is modelled by the explicit `SlsState` record.
-/

namespace Webpack

/-- Models `path.join` for plain path segments (no separators, no dot
segments), as used by the source on archive names. -/
def pathJoin (a b : String) : String := a ++ "/" ++ b

/-- Decides whether the first character list is an initial segment of the
second. -/
def leadsWith : List Char → List Char → Bool
  | [], _ => true
  | _ :: _, [] => false
  | c :: cs, d :: ds => c == d && leadsWith cs ds

/-- Decides whether the first character list occurs contiguously inside the
second. -/
def occursWithin (needle : List Char) : List Char → Bool
  | [] => leadsWith needle []
  | c :: cs => leadsWith needle (c :: cs) || occursWithin needle cs

/-- Decides whether `needle` occurs as a substring of `hay` (used only to
state what an error message does or does not mention). -/
def substrOf (needle hay : String) : Bool := occursWithin needle.toList hay.toList

/-- Semantic version triple, the shape `semver` parses out of
`this.serverless.getVersion()`. -/
structure SemVer where
  major : Nat
  minor : Nat
  patch : Nat
deriving DecidableEq

/-- Models `semver.lt` on plain (pre-release-free) versions:
lexicographic comparison of the triples. -/
def semverLt (a b : SemVer) : Bool :=
  a.major < b.major ||
    (a.major == b.major &&
      (a.minor < b.minor || (a.minor == b.minor && a.patch < b.patch)))

/-- The fixed `'1.18.0'` threshold of `setArtifactPath`. -/
def threshold118 : SemVer := ⟨1, 18, 0⟩

/-- The `func.package` object of a serverless function record: the fields
the source reads or writes (`artifact`, `disable`), plus `extra` for any
other pre-existing fields, which `_.assign` preserves and object
replacement discards. -/
structure PackageObj where
  artifact : Option String := none
  disable : Option Bool := none
  extra : List (String × String) := []
deriving DecidableEq

/-- A serverless function record: the top-level `artifact` field written by
the pre-1.18 branch, and the `package` object. -/
structure FuncRecord where
  artifact : Option String := none
  package : PackageObj := {}
deriving DecidableEq

/-- Embedding of `setArtifactPath` (src/lib/packagers/index.js lines
64-85).  Returns the updated function record together with the emitted log
messages.  `hasLog` is the presence of `this.log` (the modern logger),
`verboseOpt` is `this.options.verbose`. -/
def setArtifactPath (version : SemVer) (hasLog : Bool) (verboseOpt : Bool)
    (funcName : String) (func : FuncRecord) (artifactPath : String) :
    FuncRecord × List String :=
  let settingMsg :=
    "Setting artifact for function \x27" ++ funcName ++ "\x27 to \x27" ++ artifactPath ++ "\x27"
  let msgs := if hasLog then [settingMsg] else if verboseOpt then [settingMsg] else []
  if semverLt version threshold118 then
    let func2 : FuncRecord :=
      { func with
          artifact := some artifactPath,
          package := { func.package with disable := some true } }
    let notice :=
      if hasLog then []
      else [funcName ++ " is packaged by the webpack plugin. Ignore messages from SLS."]
    (func2, msgs ++ notice)
  else
    ({ func with package := { artifact := some artifactPath } }, msgs)

/-- Where a function record stores its artifact path, by version branch of
`setArtifactPath`: the flat `func.artifact` field below the threshold, the
nested `func.package.artifact` at or above it. -/
def recordedArtifact (version : SemVer) (func : FuncRecord) : Option String :=
  if semverLt version threshold118 then func.artifact else func.package.artifact

/-- A registered packager module, identified by its id and carrying the set
of its own (static) member names. -/
structure PackagerDesc where
  id : String
  members : List String
deriving DecidableEq

/-- The members of the `Packager` interface, as listed in the interface
comment at the top of src/lib/packagers/index.js; every registered packager
module implements exactly these as its own static properties. -/
def packagerMembers : List String :=
  ["lockfileName", "copyPackageSectionNames", "mustCopyModules",
   "getPackagerVersion", "getProdDependencies", "rebaseLockfile",
   "install", "prune", "runScripts"]

/-- The npm packager module required by the factory (its implementation
lives outside this file; only its id and member names matter here). -/
def npm : PackagerDesc := ⟨"npm", packagerMembers⟩

/-- The yarn packager module required by the factory. -/
def yarn : PackagerDesc := ⟨"yarn", packagerMembers⟩

/-- Embedding of the `registeredPackagers` object literal (lines 26-29). -/
def registeredPackagers : List (String × PackagerDesc) := [("npm", npm), ("yarn", yarn)]

/-- Models the lodash word-character class `\w` of `reIsPlainProp`. -/
def isWordChar (c : Char) : Bool := c.isAlphanum || c == '_'

/-- Models lodash `reIsPlainProp` (`^\w*$`). -/
def reIsPlainProp (s : String) : Bool := s.toList.all isWordChar

/-- Models lodash `reIsDeepProp` (the string contains a dot or a bracket
expression; approximated as containing a dot or an opening bracket). -/
def reIsDeepProp (s : String) : Bool := s.toList.any (fun c => c == '.' || c == '[')

/-- Models lodash `isKey` evaluated against the registry object: a string
is a direct key if it is a plain word, or carries no deep-path syntax, or
is literally one of the registry's keys. -/
def lodashIsKey (s : String) : Bool :=
  reIsPlainProp s || !(reIsDeepProp s) || registeredPackagers.any (fun kv => kv.1 == s)

/-- Splits a character list at every dot. -/
def splitCharsOnDot : List Char → List (List Char)
  | [] => [[]]
  | c :: cs =>
    let r := splitCharsOnDot cs
    if c == '.' then [] :: r
    else
      match r with
      | [] => [[c]]
      | w :: ws => (c :: w) :: ws

/-- Models lodash `stringToPath` for dot-separated property paths. -/
def stringToPath (s : String) : List String :=
  (splitCharsOnDot s.toList).map (fun cs => ⟨cs⟩)

/-- Models lodash `hasPath` walked over the two-level registry object:
depth one checks the registry's own keys, depth two checks the packager
modules' own members; deeper chains are not modelled and yield `false`. -/
def lodashHasPath : List String → Bool
  | [k] => registeredPackagers.any (fun kv => kv.1 == k)
  | [k, m] => registeredPackagers.any (fun kv => kv.1 == k && kv.2.members.contains m)
  | _ => false

/-- Models `_.has(registeredPackagers, packagerId)`. -/
def lodashHas (s : String) : Bool :=
  if lodashIsKey s then registeredPackagers.any (fun kv => kv.1 == s)
  else lodashHasPath (stringToPath s)

/-- Models the bracket access `registeredPackagers[packagerId]`. -/
def lookupPackager (s : String) : Option PackagerDesc :=
  (registeredPackagers.find? (fun kv => kv.1 == s)).map Prod.snd

/-- Outcome of the factory: a packager module, the JavaScript `undefined`
value, or a thrown `serverless.classes.Error` with its message. -/
inductive GetResult where
  | found (p : PackagerDesc)
  | undef
  | thrown (msg : String)
deriving DecidableEq

/-- Embedding of `exports.get` (lines 41-52): if `_.has` reports the id,
return the bracket lookup (which may be `undefined` for deep paths);
otherwise throw an error whose message carries the rejected id. -/
def getPackager (packagerId : String) : GetResult :=
  if lodashHas packagerId then
    match lookupPackager packagerId with
    | some p => GetResult.found p
    | none => GetResult.undef
  else
    GetResult.thrown ("Could not find packager \x27" ++ packagerId ++ "\x27")

/-- Models `fs.unlinkSync` on a file store (a list of paths): removing an
absent file fails with an ENOENT error. -/
def unlinkSync (file : String) (disk : List String) : Except String (List String) :=
  if disk.contains file then Except.ok (disk.filter (fun g => !(g == file)))
  else Except.error ("ENOENT: no such file " ++ file)

/-- Embedding of the `excludeRegex` loop of `zip` (lines 120-134): walks
the enumerated relative paths, splicing every match out of the list,
counting it, and unlinking `path.join(directory, file)` from the store
when `fs.existsSync` reports it.  Returns the remaining file list, the
resulting store and the excluded count. -/
def excludeLoop (isMatch : String → Bool) (directory : String) :
    List String → List String → Except String (List String × List String × Nat)
  | [], store => Except.ok ([], store, 0)
  | f :: rest, store =>
    if isMatch f then
      let pathFile := pathJoin directory f
      match (if store.contains pathFile then unlinkSync pathFile store else Except.ok store) with
      | Except.error e => Except.error e
      | Except.ok store2 =>
        match excludeLoop isMatch directory rest store2 with
        | Except.error e => Except.error e
        | Except.ok (kept, store3, n) => Except.ok (kept, store3, n + 1)
    else
      match excludeLoop isMatch directory rest store with
      | Except.error e => Except.error e
      | Except.ok (kept, store3, n) => Except.ok (f :: kept, store3, n)

/-- The configuration `zip` reads from the plugin instance: the optional
`excludeRegex` (modelled as the predicate `file.match(excludeRegex)`), and
`this.webpackOutputPath`. -/
structure ZipConfig where
  excludeRegex : Option (String → Bool)
  webpackOutputPath : String

/-- Result of one `serverlessZip` run: the returned path or thrown error,
the artifact files present afterwards, the entries appended to the archive
(`none` when no complete archive was produced), and whether the output
stream's `close` event has fired. -/
structure ArchiveRun where
  result : Except String String
  outFiles : List String
  archiveEntries : Option (List String)
  streamClosed : Bool

/-- Embedding of `serverlessZip` (lines 87-104).  `fs.createWriteStream`
opens the stream at the final artifact path immediately, so the file
exists on disk from the start of the run; `writeError` injects a failure
of the archive or of the stream, and the source contains no cleanup path
for it, so the file stays behind; on success the path is returned only
after the `close` event. -/
def serverlessZipRun (outFiles : List String) (artifactFilePath : String)
    (dirEntries : List String) (writeError : Option String) : ArchiveRun :=
  let outFiles1 := if outFiles.contains artifactFilePath then outFiles else artifactFilePath :: outFiles
  match writeError with
  | some e =>
    { result := Except.error e, outFiles := outFiles1, archiveEntries := none, streamClosed := false }
  | none =>
    { result := Except.ok artifactFilePath, outFiles := outFiles1,
      archiveEntries := some dirEntries, streamClosed := true }

/-- Result of one `zip` run over a compile directory. -/
structure ZipOutcome where
  result : Except String String
  dirStore : List String
  outFiles : List String
  archiveEntries : Option (List String)
  filesListed : List String
  excludedCount : Nat

/-- Continuation of `zip` after the exclusion filter (lines 143-157):
reject an empty file list before any artifact is created, otherwise build
the archive at `path.join(this.webpackOutputPath, zipFileName)` from the
directory's current contents. -/
def zipFinish (cfg : ZipConfig) (directory : String) (dirFiles2 : List String)
    (files2 : List String) (store2 : List String) (outFiles : List String)
    (zipFileName : String) (n : Nat) : ZipOutcome :=
  if files2.isEmpty then
    { result := Except.error "Packaging: No files found", dirStore := store2,
      outFiles := outFiles, archiveEntries := none, filesListed := files2,
      excludedCount := n }
  else
    let artifactFilePath := pathJoin cfg.webpackOutputPath zipFileName
    let entries := dirFiles2.filter (fun f => store2.contains (pathJoin directory f))
    let ar := serverlessZipRun outFiles artifactFilePath entries none
    { result := ar.result, dirStore := store2, outFiles := ar.outFiles,
      archiveEntries := ar.archiveEntries, filesListed := files2,
      excludedCount := n }

/-- Embedding of `zip` (lines 106-158).  `dirFiles` is the `glob('**')`
enumeration of `directory` (relative paths, dot files included, no
directories); the directory's store holds the corresponding joined paths;
`outFiles` are the artifact files already under the output path.  The
archive entries are whatever `archiver.directory` finds on disk when the
archive is written. -/
def zipRun (cfg : ZipConfig) (directory : String) (dirFiles : List String)
    (outFiles : List String) (zipFileName : String) : ZipOutcome :=
  let files := dirFiles
  let store := dirFiles.map (pathJoin directory)
  match cfg.excludeRegex with
  | some pat =>
    match excludeLoop pat directory files store with
    | Except.error e =>
      { result := Except.error e, dirStore := store, outFiles := outFiles,
        archiveEntries := none, filesListed := files, excludedCount := 0 }
    | Except.ok (files2, store2, n) =>
      zipFinish cfg directory dirFiles files2 store2 outFiles zipFileName n
  | none => zipFinish cfg directory dirFiles files store outFiles zipFileName 0

/-- The file list `zip` is left with after the optional exclusion filter. -/
def filteredEnum (cfg : ZipConfig) (dirFiles : List String) : List String :=
  match cfg.excludeRegex with
  | some pat => dirFiles.filter (fun f => !(pat f))
  | none => dirFiles

/-- The plugin/host state read and written by `copyExistingArtifacts`:
the host's function registry, service name, packaging mode, provider,
service-level artifact field, reported version, output path, the `-f`
option and the active logger shape. -/
structure SlsState where
  functions : List (String × FuncRecord)
  serviceName : String
  individually : Bool
  providerGoogle : Bool
  servicePackageArtifact : Option String
  version : SemVer
  webpackOutputPath : String
  optionsFunction : Option String
  hasModernLog : Bool
  optionsVerbose : Bool
deriving DecidableEq

/-- Models `this.serverless.service.getFunction(name)`: the first record
registered under that name. -/
def getFunction (fns : List (String × FuncRecord)) (name : String) : Option FuncRecord :=
  (fns.find? (fun kv => kv.1 == name)).map Prod.snd

/-- In-place mutation of the record `getFunction` returned: every entry
registered under the name is replaced by the updated record. -/
def updateFunc (name : String) (r : FuncRecord) :
    List (String × FuncRecord) → List (String × FuncRecord)
  | [] => []
  | (n, fr) :: rest =>
    if n == name then (n, r) :: updateFunc name r rest
    else (n, fr) :: updateFunc name r rest

/-- Modelled from the spec: `getAllNodeFunctions` (imported from
`./utils`, which is not under src/) returns the names of all node
functions of the host registry (spec section 4.4: the assignment pass is
over every function; section 6: the host function registry). -/
def getAllNodeFunctions (st : SlsState) : List String :=
  st.functions.map Prod.fst

/-- The `functionNames` list of `copyExistingArtifacts` (line 232): only
the `-f`-selected function when the option is set, else all functions. -/
def functionNamesOf (st : SlsState) : List String :=
  match st.optionsFunction with
  | some f => [f]
  | none => getAllNodeFunctions st

/-- Embedding of `getArtifactLocations` (lines 160-167): the build-stage
(webpack) and deploy-stage (`.serverless`) paths of an archive name. -/
def getArtifactLocations (webpackOutputPath : String) (name : String) : String × String :=
  let archiveName := name ++ ".zip"
  (pathJoin webpackOutputPath archiveName, pathJoin ".serverless" archiveName)

/-- Embedding of `copyArtifactByName` (lines 169-176): `fs.copyFileSync`
fails when the build-stage artifact is absent, and otherwise makes the
deploy-stage path present on disk. -/
def copyArtifactByName (webpackOutputPath : String) (disk : List String)
    (artifactName : String) : Except String (List String) :=
  let locs := getArtifactLocations webpackOutputPath artifactName
  if disk.contains locs.1 then
    Except.ok (if disk.contains locs.2 then disk else locs.2 :: disk)
  else
    Except.error ("ENOENT: no such file " ++ locs.1)

/-- The copy pass of `copyExistingArtifacts` (lines 237-243): one copy per
function name under individual packaging, one service copy otherwise. -/
def copyPass (st : SlsState) (disk : List String) : Except String (List String) :=
  if st.individually then
    (functionNamesOf st).foldlM (fun d n => copyArtifactByName st.webpackOutputPath d n) disk
  else
    copyArtifactByName st.webpackOutputPath disk st.serviceName

/-- The assignment pass of `copyExistingArtifacts` (lines 245-256): for
each processed name, fetch the record, compute the archive name from the
packaging mode, and apply `setArtifactPath` with the deploy-stage path. -/
def assignLoop (st : SlsState) :
    List String → List (String × FuncRecord) → List String →
    Except String (List (String × FuncRecord) × List String)
  | [], fns, msgs => Except.ok (fns, msgs)
  | n :: rest, fns, msgs =>
    match getFunction fns n with
    | none => Except.error ("Function \x27" ++ n ++ "\x27 does not exist")
    | some func =>
      let archiveName := if st.individually then n else st.serviceName
      let locs := getArtifactLocations st.webpackOutputPath archiveName
      let r := setArtifactPath st.version st.hasModernLog st.optionsVerbose n func locs.2
      assignLoop st rest (updateFunc n r.1 fns) (msgs ++ r.2)

/-- The provider special case of `copyExistingArtifacts` (lines 258-267):
under unified packaging on google, `setServiceArtifactPath` records the
service's deploy-stage path on the service object. -/
def applyGoogleBranch (st : SlsState) : SlsState :=
  if !st.individually && st.providerGoogle then
    { st with
        servicePackageArtifact :=
          some (getArtifactLocations st.webpackOutputPath st.serviceName).2 }
  else st

/-- Embedding of `copyExistingArtifacts` (lines 223-270): the copy pass,
then the assignment pass over the same `functionNames`, then the google
special case.  Returns the final state, the disk and the messages emitted
by `setArtifactPath`. -/
def copyExistingArtifacts (st : SlsState) (disk : List String) :
    Except String (SlsState × List String × List String) :=
  match copyPass st disk with
  | Except.error e => Except.error e
  | Except.ok disk2 =>
    match assignLoop st (functionNamesOf st) st.functions [] with
    | Except.error e => Except.error e
    | Except.ok (fns2, msgs) =>
      Except.ok (applyGoogleBranch { st with functions := fns2 }, disk2, msgs)

/-- The artifact path a function named `n` is bound to, read back through
the version-dependent record shape. -/
def bindingOf (version : SemVer) (fns : List (String × FuncRecord)) (n : String) :
    Option String :=
  (getFunction fns n).bind (recordedArtifact version)

/-- Closed form of the exclusion loop: it never fails (the `existsSync`
guard protects every unlink), keeps exactly the non-matching files, deletes
exactly the joined matching files from the store, and counts the matches. -/
theorem excludeLoop_eq (p : String → Bool) (dir : String) :
    ∀ (files store : List String),
    excludeLoop p dir files store =
      Except.ok (files.filter (fun f => !p f),
        store.filter (fun g => !(((files.filter p).map (pathJoin dir)).contains g)),
        (files.filter p).length) := by
  intro files
  induction files with
  | nil => intro store; simp [excludeLoop]
  | cons f rest ih =>
    intro store
    by_cases hf : p f = true
    · have hstep :
          (if store.contains (pathJoin dir f) then unlinkSync (pathJoin dir f) store
           else Except.ok store)
            = Except.ok (store.filter (fun g => !(g == pathJoin dir f))) := by
        by_cases hc : store.contains (pathJoin dir f) = true
        · have hm : pathJoin dir f ∈ store := by simpa using hc
          simp [unlinkSync, hm]
        · have hm : pathJoin dir f ∉ store := by simpa using hc
          have hne : ∀ g ∈ store, (!(g == pathJoin dir f)) = true := by
            intro g hg
            have hne2 : g ≠ pathJoin dir f := by
              intro he
              exact hm (he ▸ hg)
            simp [hne2]
          simp [hm, List.filter_eq_self.mpr hne]
      simp only [excludeLoop, hf, if_pos, hstep]
      rw [ih (store.filter (fun g => !(g == pathJoin dir f)))]
      simp only [List.filter_cons, hf, Bool.not_true, List.map_cons, List.length_cons,
        List.filter_filter, Except.ok.injEq, Prod.mk.injEq, if_false]
      refine ⟨by simp, ?_, by simp⟩
      apply List.filter_congr
      intro g _
      cases hgf : g == pathJoin dir f <;>
        cases hL : ((rest.filter p).map (pathJoin dir)).contains g <;>
          simp_all [List.contains_cons]
    · have hf2 : p f = false := by simpa using hf
      simp only [excludeLoop, hf2, Bool.false_eq_true, if_false]
      rw [ih store]
      simp [List.filter_cons, hf2]

/-- Joining distinct final segments onto the same directory gives distinct
paths, and conversely. -/
theorem pathJoin_inj (dir a b : String) (h : pathJoin dir a = pathJoin dir b) : a = b := by
  have hd := congrArg String.data h
  simp only [pathJoin, String.data_append, List.append_assoc] at hd
  exact String.ext (List.append_cancel_left (List.append_cancel_left hd))

/-- Appending the fixed `.zip` suffix is injective on archive names. -/
theorem zipSuffix_inj (a b : String) (h : a ++ ".zip" = b ++ ".zip") : a = b := by
  have hd := congrArg String.data h
  simp only [String.data_append] at hd
  exact String.ext (List.append_cancel_right hd)

/-- Distinct archive names have distinct deploy-stage locations. -/
theorem serverlessArtifact_inj (w n1 n2 : String)
    (h : (getArtifactLocations w n1).2 = (getArtifactLocations w n2).2) : n1 = n2 := by
  simp only [getArtifactLocations] at h
  exact zipSuffix_inj n1 n2 (pathJoin_inj ".serverless" _ _ h)

/-- C8: exclusion filtering is idempotent.  From a first filter pass over a
directory enumeration, a second pass raises no error and changes nothing:
over the already-filtered list it keeps the same FileSet and the same store
with zero exclusions, and over the original enumeration (whose matches are
already deleted from disk) the guarded unlink skips the missing files and
the pass succeeds with the same final FileSet and store. -/
theorem filter_idempotent_no_error (p : String → Bool) (dir : String)
    (files store kept store1 : List String) (n : Nat)
    (h : excludeLoop p dir files store = Except.ok (kept, store1, n)) :
    excludeLoop p dir kept store1 = Except.ok (kept, store1, 0) ∧
    excludeLoop p dir files store1 = Except.ok (kept, store1, n) := by
  rw [excludeLoop_eq] at h
  simp only [Except.ok.injEq, Prod.mk.injEq] at h
  obtain ⟨hk, hs, hn⟩ := h
  have hkept : kept.filter (fun f => !p f) = kept := by
    rw [← hk, List.filter_filter]
    simp
  have hmatched : kept.filter p = [] := by
    rw [← hk]
    rw [List.filter_eq_nil_iff]
    intro a ha
    have := List.mem_filter.mp ha
    simp at this
    simp [this.2]
  constructor
  · rw [excludeLoop_eq, hkept, hmatched]
    simp
  · rw [excludeLoop_eq, hk, hn]
    have hstore : store1.filter
        (fun g => !(((files.filter p).map (pathJoin dir)).contains g)) = store1 := by
      rw [← hs, List.filter_filter]
      simp
    rw [hstore]

/-- A concrete exclusion matcher used by witnesses. -/
def exMdMatcher : String → Bool := fun s => s == "a.md"

/-- Witness for the idempotence theorem: one concrete first pass, then both
second-pass conclusions evaluated. -/
theorem filter_idempotent_no_error_witness :
    excludeLoop exMdMatcher "d" ["b.js"] ["d/b.js"] = Except.ok (["b.js"], ["d/b.js"], 0) ∧
    excludeLoop exMdMatcher "d" ["a.md", "b.js"] ["d/b.js"] = Except.ok (["b.js"], ["d/b.js"], 1) :=
  filter_idempotent_no_error exMdMatcher "d" ["a.md", "b.js"] ["d/a.md", "d/b.js"]
    ["b.js"] ["d/b.js"] 1 (by rfl)

/-- C2: the produced archive holds exactly the filtered FileSet.  Whenever
`zip` produces an archive, its entries are exactly the file list left after
the exclusion pass, and no path matching the exclusion pattern appears in
the archive input. -/
theorem archive_contains_exactly_filtered_set (cfg : ZipConfig) (dir : String)
    (dirFiles outFiles : List String) (zipFileName : String) :
    (∀ l, (zipRun cfg dir dirFiles outFiles zipFileName).archiveEntries = some l →
       l = (zipRun cfg dir dirFiles outFiles zipFileName).filesListed) ∧
    (∀ pat, cfg.excludeRegex = some pat →
       ∀ l f, (zipRun cfg dir dirFiles outFiles zipFileName).archiveEntries = some l →
         pat f = true → l.contains f = false) := by
  rcases hre : cfg.excludeRegex with _ | pat
  · constructor
    · intro l hl
      simp only [zipRun, hre] at hl ⊢
      by_cases he : dirFiles.isEmpty
      · simp [zipFinish, he] at hl
      · simp [zipFinish, he, serverlessZipRun] at hl ⊢
        rw [← hl]
        apply List.filter_eq_self.mpr
        intro f hf
        simp
        exact ⟨f, hf, rfl⟩
    · intro pat hpat
      exact absurd hpat (by simp [hre])
  · have hmain : ∀ l, (zipRun cfg dir dirFiles outFiles zipFileName).archiveEntries = some l →
        l = dirFiles.filter (fun f => !pat f) := by
      intro l hl
      simp only [zipRun, hre] at hl
      rw [excludeLoop_eq] at hl
      by_cases he : (dirFiles.filter (fun f => !pat f)).isEmpty
      · simp [zipFinish, he] at hl
      · simp [zipFinish, he, serverlessZipRun] at hl
        rw [← hl]
        apply List.filter_congr
        intro f hf
        rcases hp : pat f
        · simp only [Bool.not_false]
          simp
          refine ⟨⟨f, hf, rfl⟩, ?_⟩
          intro a ha hpa hja
          have haf : a = f := pathJoin_inj dir a f hja
          rw [haf, hp] at hpa
          exact Bool.noConfusion hpa
        · simp only [Bool.not_true]
          simp
          intro a ha hja
          exact ⟨f, hf, hp, rfl⟩
    have hlisted : (zipRun cfg dir dirFiles outFiles zipFileName).filesListed =
        dirFiles.filter (fun f => !pat f) := by
      simp only [zipRun, hre]
      rw [excludeLoop_eq]
      by_cases he : (dirFiles.filter (fun f => !pat f)).isEmpty
      · simp [zipFinish, he]
      · simp [zipFinish, he, serverlessZipRun]
    refine ⟨?_, ?_⟩
    · intro l hl
      rw [hmain l hl, hlisted]
    · intro pat' hpat' l f hl hpf
      have hpe : pat = pat' := Option.some.inj hpat'
      rw [← hpe] at hpf
      have hnm : f ∉ dirFiles.filter (fun g => !pat g) := by
        intro hmem
        have h2 := (List.mem_filter.mp hmem).2
        rw [hpf] at h2
        exact Bool.noConfusion h2
      rw [hmain l hl]
      simpa using hnm

/-- A concrete exclusion matcher used by witnesses. -/
def exXMatcher : String → Bool := fun s => s == "x"

/-- A concrete zip configuration used by witnesses. -/
def exZipConfig : ZipConfig := ⟨some exXMatcher, "out"⟩

/-- Witness for the archive-content theorem at a concrete run. -/
theorem archive_contains_exactly_filtered_set_witness :
    ["y"] = (zipRun exZipConfig "mydir" ["x", "y"] [] "svc.zip").filesListed ∧
    (["y"] : List String).contains "x" = false :=
  ⟨(archive_contains_exactly_filtered_set exZipConfig "mydir" ["x", "y"] [] "svc.zip").1
      ["y"] (by rfl),
   (archive_contains_exactly_filtered_set exZipConfig "mydir" ["x", "y"] [] "svc.zip").2
      exXMatcher rfl ["y"] "x" (by rfl) (by rfl)⟩

/-- C4 (amended): when the file list left after filtering is empty, `zip`
fails with the fixed error message `Packaging: No files found` before any
archive is created: no archive entries exist and the output directory is
untouched.  (The message is a constant; it does not name the directory.) -/
theorem empty_fileset_rejected (cfg : ZipConfig) (dir : String)
    (dirFiles outFiles : List String) (zipFileName : String)
    (h : filteredEnum cfg dirFiles = []) :
    (zipRun cfg dir dirFiles outFiles zipFileName).result
        = Except.error "Packaging: No files found" ∧
    (zipRun cfg dir dirFiles outFiles zipFileName).archiveEntries = none ∧
    (zipRun cfg dir dirFiles outFiles zipFileName).outFiles = outFiles := by
  rcases hre : cfg.excludeRegex with _ | pat
  · simp only [filteredEnum, hre] at h
    subst h
    simp [zipRun, hre, zipFinish]
  · simp only [filteredEnum, hre] at h
    simp only [zipRun, hre]
    rw [excludeLoop_eq]
    simp [zipFinish, h]

/-- An exclusion matcher that matches every file, used by witnesses. -/
def allMatcher : String → Bool := fun _ => true

/-- A zip configuration whose pattern excludes everything. -/
def exZipConfigAll : ZipConfig := ⟨some allMatcher, "out"⟩

/-- Witness for the empty-set rejection at a directory whose only file is
excluded. -/
theorem empty_fileset_rejected_witness :
    (zipRun exZipConfigAll "mydir" ["index.js"] [] "svc.zip").result
        = Except.error "Packaging: No files found" ∧
    (zipRun exZipConfigAll "mydir" ["index.js"] [] "svc.zip").archiveEntries = none ∧
    (zipRun exZipConfigAll "mydir" ["index.js"] [] "svc.zip").outFiles = [] :=
  empty_fileset_rejected exZipConfigAll "mydir" ["index.js"] [] "svc.zip" (by rfl)

/-- Counterexample to C4 as stated: packaging the directory
`mydirectory1234567890` with every file excluded fails with the constant
message `Packaging: No files found`, and that message does not name the
root directory. -/
theorem empty_fileset_error_nameless :
    (zipRun exZipConfigAll "mydirectory1234567890" ["index.js"] [] "svc.zip").result
        = Except.error "Packaging: No files found" ∧
    substrOf "mydirectory1234567890" "Packaging: No files found" = false := by
  constructor
  · rfl
  · rfl

/-- C9 (amended): a failing archive build aborts with the error, but the
partially-written file remains at the output path, because the write
stream is opened at the final artifact path and the source has no cleanup
path; on success the path is returned only after the stream's close event
has fired. -/
theorem archive_failure_contract (outFiles : List String) (p : String)
    (dirEntries : List String) (we : Option String) :
    (∀ e, we = some e →
        (serverlessZipRun outFiles p dirEntries we).result = Except.error e ∧
        (serverlessZipRun outFiles p dirEntries we).outFiles.contains p = true) ∧
    (we = none →
        (serverlessZipRun outFiles p dirEntries we).result = Except.ok p ∧
        (serverlessZipRun outFiles p dirEntries we).streamClosed = true) := by
  constructor
  · intro e he
    subst he
    by_cases hc : outFiles.contains p = true <;>
      simp_all [serverlessZipRun, List.contains_cons]
  · intro he
    subst he
    simp [serverlessZipRun]

/-- Witness for the archive contract on a concrete successful run. -/
theorem archive_failure_contract_witness :
    (serverlessZipRun [] "out/a.zip" [] none).result = Except.ok "out/a.zip" ∧
    (serverlessZipRun [] "out/a.zip" [] none).streamClosed = true :=
  (archive_failure_contract [] "out/a.zip" [] none).2 rfl

/-- Counterexample to C9 as stated: a build whose stream fails leaves a
file at the output path. -/
theorem archive_failure_leaves_partial_file :
    (serverlessZipRun [] "out/svc.zip" ["index.js"] (some "EIO: write failed")).result
        = Except.error "EIO: write failed" ∧
    (serverlessZipRun [] "out/svc.zip" ["index.js"]
        (some "EIO: write failed")).outFiles.contains "out/svc.zip" = true := by
  constructor <;> rfl

/-- C3 (amended): the factory returns the registered module for each of the
two well-known ids, and for any other id that carries no lodash path syntax
(no dot, no bracket) it throws an error whose message carries that exact
id.  (Ids with path syntax can slip through `_.has` and yield `undefined`
instead; see the counterexample.) -/
theorem factory_resolution (s : String) :
    getPackager "npm" = GetResult.found npm ∧
    getPackager "yarn" = GetResult.found yarn ∧
    (s ≠ "npm" → s ≠ "yarn" → (∀ c ∈ s.toList, c ≠ '.' ∧ c ≠ '[') →
      getPackager s = GetResult.thrown ("Could not find packager \x27" ++ s ++ "\x27")) := by
  refine ⟨by rfl, by rfl, ?_⟩
  intro h1 h2 hchars
  have hdeep : reIsDeepProp s = false := by
    apply List.any_eq_false.mpr
    intro c hc
    obtain ⟨hd, hb⟩ := hchars c hc
    simp [hd, hb]
  have hkey : lodashIsKey s = true := by
    simp [lodashIsKey, hdeep]
  have hreg : registeredPackagers.any (fun kv => kv.1 == s) = false := by
    simp [registeredPackagers]
    exact ⟨fun h => h1 h.symm, fun h => h2 h.symm⟩
  simp [getPackager, lodashHas, hkey, hreg]

/-- Witness for the factory theorem at a concrete unknown id. -/
theorem factory_resolution_witness :
    getPackager "someTool" =
      GetResult.thrown ("Could not find packager \x27" ++ "someTool" ++ "\x27") :=
  (factory_resolution "someTool").2.2 (by decide) (by decide) (by decide)

/-- Counterexample to C3 as stated: `npm.install` is not a registered id,
yet the factory does not throw for it — `_.has` resolves it as a property
path into the npm module, and the bracket lookup returns `undefined`. -/
theorem factory_path_id_returns_undefined :
    getPackager "npm.install" = GetResult.undef ∧
    "npm.install" ≠ "npm" ∧ "npm.install" ≠ "yarn" :=
  ⟨by rfl, by decide, by decide⟩

/-- C5 (amended): below the `1.18.0` threshold the function record gets the
flat artifact path and the disable flag, and the informational notice is
emitted exactly when the legacy CLI logger is active (with the modern
logger no notice is emitted); at or above the threshold the record gets the
nested artifact descriptor; in both shapes the recorded path is the same
underlying path string. -/
theorem version_gated_assignment_shape (v : SemVer) (hasLog verboseOpt : Bool)
    (funcName : String) (func : FuncRecord) (p : String) :
    (semverLt v threshold118 = true →
        (setArtifactPath v hasLog verboseOpt funcName func p).1.artifact = some p ∧
        (setArtifactPath v hasLog verboseOpt funcName func p).1.package.disable = some true ∧
        (hasLog = false →
          (setArtifactPath v hasLog verboseOpt funcName func p).2 =
            (if verboseOpt then
                ["Setting artifact for function \x27" ++ funcName ++ "\x27 to \x27" ++ p ++ "\x27"]
              else []) ++
              [funcName ++ " is packaged by the webpack plugin. Ignore messages from SLS."]) ∧
        (hasLog = true →
          (setArtifactPath v hasLog verboseOpt funcName func p).2 =
            ["Setting artifact for function \x27" ++ funcName ++ "\x27 to \x27" ++ p ++ "\x27"])) ∧
    (semverLt v threshold118 = false →
        (setArtifactPath v hasLog verboseOpt funcName func p).1.package =
          { artifact := some p, disable := none, extra := [] }) ∧
    recordedArtifact v (setArtifactPath v hasLog verboseOpt funcName func p).1 = some p := by
  by_cases hv : semverLt v threshold118 = true
  · refine ⟨fun _ => ?_, fun hv2 => ?_, ?_⟩
    · cases hasLog <;> cases verboseOpt <;>
        simp [setArtifactPath, recordedArtifact, hv]
    · rw [hv] at hv2
      exact Bool.noConfusion hv2
    · cases hasLog <;> cases verboseOpt <;>
        simp [setArtifactPath, recordedArtifact, hv]
  · have hv2 : semverLt v threshold118 = false := by simpa using hv
    refine ⟨fun hc => absurd hc hv, fun _ => ?_, ?_⟩
    all_goals cases hasLog <;> cases verboseOpt <;>
      simp [setArtifactPath, recordedArtifact, hv2]

/-- Witness for the version-gated shape at a concrete pre-threshold call. -/
theorem version_gated_assignment_shape_witness :
    (setArtifactPath ⟨1, 17, 0⟩ false false "f" {} "p").1.artifact = some "p" ∧
    recordedArtifact ⟨1, 17, 0⟩ (setArtifactPath ⟨1, 17, 0⟩ false false "f" {} "p").1
      = some "p" :=
  ⟨((version_gated_assignment_shape ⟨1, 17, 0⟩ false false "f" {} "p").1 (by rfl)).1,
   (version_gated_assignment_shape ⟨1, 17, 0⟩ false false "f" {} "p").2.2⟩

/-- Counterexample to C5 as stated: below the threshold but with the modern
logger active, no informational notice is emitted — the emitted messages
are only the verbose artifact line. -/
theorem notice_not_emitted_with_modern_logger :
    semverLt ⟨1, 17, 0⟩ threshold118 = true ∧
    (setArtifactPath ⟨1, 17, 0⟩ true false "f1" {} "p").2 =
      ["Setting artifact for function \x27f1\x27 to \x27p\x27"] ∧
    ¬ ("f1 is packaged by the webpack plugin. Ignore messages from SLS."
        ∈ (setArtifactPath ⟨1, 17, 0⟩ true false "f1" {} "p").2) :=
  ⟨by rfl, by rfl, by decide⟩

/-- C10: the frame of the two assignment shapes.  Below the threshold the
existing `package` object is merged into — its other fields survive and
only `disable` is added — while at or above the threshold the whole
`package` object is replaced by one holding only the artifact path. -/
theorem assignment_shape_frame (v : SemVer) (hasLog verboseOpt : Bool)
    (funcName : String) (func : FuncRecord) (p : String) :
    (semverLt v threshold118 = true →
        (setArtifactPath v hasLog verboseOpt funcName func p).1.package.extra
            = func.package.extra ∧
        (setArtifactPath v hasLog verboseOpt funcName func p).1.package.artifact
            = func.package.artifact ∧
        (setArtifactPath v hasLog verboseOpt funcName func p).1.package.disable
            = some true ∧
        (setArtifactPath v hasLog verboseOpt funcName func p).1.artifact = some p) ∧
    (semverLt v threshold118 = false →
        (setArtifactPath v hasLog verboseOpt funcName func p).1.package =
          { artifact := some p, disable := none, extra := [] } ∧
        (setArtifactPath v hasLog verboseOpt funcName func p).1.artifact
            = func.artifact) := by
  by_cases hv : semverLt v threshold118 = true
  · refine ⟨fun _ => ?_, fun hv2 => ?_⟩
    · simp [setArtifactPath, hv]
    · rw [hv] at hv2
      exact Bool.noConfusion hv2
  · have hv2 : semverLt v threshold118 = false := by simpa using hv
    exact ⟨fun hc => absurd hc hv, fun _ => by simp [setArtifactPath, hv2]⟩

/-- A function record with pre-existing package fields, used by witnesses. -/
def exFuncRecord : FuncRecord :=
  { artifact := none,
    package := { artifact := some "old", disable := none, extra := [("memorySize", "128")] } }

/-- Witness for the frame theorem: the pre-threshold shape preserves the
pre-existing package fields, the post-threshold shape discards them. -/
theorem assignment_shape_frame_witness :
    (setArtifactPath ⟨1, 17, 0⟩ false false "f" exFuncRecord "p").1.package.extra
        = exFuncRecord.package.extra ∧
    (setArtifactPath ⟨1, 18, 0⟩ false false "f" exFuncRecord "p").1.package =
      { artifact := some "p", disable := none, extra := [] } :=
  ⟨((assignment_shape_frame ⟨1, 17, 0⟩ false false "f" exFuncRecord "p").1 (by rfl)).1,
   ((assignment_shape_frame ⟨1, 18, 0⟩ false false "f" exFuncRecord "p").2 (by rfl)).1⟩

/-- Looking up a key behaves as expected on a cons cell. -/
theorem getFunction_cons (k : String) (fr : FuncRecord) (rest : List (String × FuncRecord))
    (m : String) :
    getFunction ((k, fr) :: rest) m = if k == m then some fr else getFunction rest m := by
  rcases h : k == m <;> simp [getFunction, List.find?_cons, h]

/-- Updating a record behaves as expected on a cons cell. -/
theorem updateFunc_cons (k : String) (fr : FuncRecord) (rest : List (String × FuncRecord))
    (n : String) (r : FuncRecord) :
    updateFunc n r ((k, fr) :: rest) =
      (if k == n then (k, r) else (k, fr)) :: updateFunc n r rest := by
  rcases h : k == n <;> simp [updateFunc, h]

/-- Updating one function leaves other lookups unchanged. -/
theorem getFunction_updateFunc_other (n m : String) (r : FuncRecord) (h : m ≠ n) :
    ∀ fns, getFunction (updateFunc n r fns) m = getFunction fns m := by
  intro fns
  induction fns with
  | nil => rfl
  | cons kv rest ih =>
    obtain ⟨k, fr⟩ := kv
    rw [updateFunc_cons]
    rcases hk : k == n
    · simp only [hk, Bool.false_eq_true, if_false]
      rw [getFunction_cons, getFunction_cons, ih]
    · have hkn : k = n := by simpa using hk
      have hkm : (k == m) = false := by
        subst hkn
        simpa using fun he => h he.symm
      simp only [hk, if_true]
      rw [getFunction_cons, getFunction_cons, hkm, ih]
      simp

/-- Updating one function makes its own lookup return the new record
whenever it was registered at all. -/
theorem getFunction_updateFunc_self (n : String) (r : FuncRecord) :
    ∀ fns, getFunction (updateFunc n r fns) n = (getFunction fns n).map (fun _ => r) := by
  intro fns
  induction fns with
  | nil => rfl
  | cons kv rest ih =>
    obtain ⟨k, fr⟩ := kv
    rw [updateFunc_cons]
    rcases hk : k == n
    · simp only [hk, Bool.false_eq_true, if_false]
      rw [getFunction_cons, getFunction_cons, ih]
      simp [hk]
    · simp only [hk, if_true]
      rw [getFunction_cons, getFunction_cons]
      simp [hk]

/-- Both shapes written by `setArtifactPath` record the given path. -/
theorem recordedArtifact_set (v : SemVer) (hl vo : Bool) (n : String)
    (func : FuncRecord) (p : String) :
    recordedArtifact v (setArtifactPath v hl vo n func p).1 = some p := by
  rcases hv : semverLt v threshold118 <;>
    simp [setArtifactPath, recordedArtifact, hv]

/-- The assignment pass leaves a function outside the processed names
untouched. -/
theorem assignLoop_lookup_out (st : SlsState) :
    ∀ (names : List String) (fns : List (String × FuncRecord)) (msgs : List String)
      (fns2 : List (String × FuncRecord)) (msgs2 : List String),
    assignLoop st names fns msgs = Except.ok (fns2, msgs2) →
    ∀ m, m ∉ names → getFunction fns2 m = getFunction fns m := by
  intro names
  induction names with
  | nil =>
    intro fns msgs fns2 msgs2 h m _
    simp only [assignLoop, Except.ok.injEq, Prod.mk.injEq] at h
    rw [h.1]
  | cons n rest ih =>
    intro fns msgs fns2 msgs2 h m hm
    simp only [assignLoop] at h
    cases hg : getFunction fns n with
    | none => rw [hg] at h; cases h
    | some func =>
      rw [hg] at h
      have hm1 : m ∉ rest := fun hx => hm (List.mem_cons_of_mem n hx)
      have hm2 : m ≠ n := fun he => hm (he ▸ List.mem_cons_self m rest)
      rw [ih _ _ _ _ h m hm1]
      exact getFunction_updateFunc_other n m _ hm2 fns

/-- The assignment pass binds every processed function that is registered
to the deploy-stage path of its mode-dependent archive name. -/
theorem assignLoop_lookup_in (st : SlsState) :
    ∀ (names : List String), names.Nodup →
    ∀ (fns : List (String × FuncRecord)) (msgs : List String)
      (fns2 : List (String × FuncRecord)) (msgs2 : List String) (n : String)
      (func : FuncRecord),
    assignLoop st names fns msgs = Except.ok (fns2, msgs2) →
    n ∈ names → getFunction fns n = some func →
    getFunction fns2 n =
      some (setArtifactPath st.version st.hasModernLog st.optionsVerbose n func
        (getArtifactLocations st.webpackOutputPath
          (if st.individually then n else st.serviceName)).2).1 := by
  intro names
  induction names with
  | nil =>
    intro _ fns msgs fns2 msgs2 n func _ hmem _
    exact absurd hmem (List.not_mem_nil n)
  | cons a rest ih =>
    intro hnd fns msgs fns2 msgs2 n func h hmem hget
    rcases List.mem_cons.mp hmem with he | hr
    · subst he
      simp only [assignLoop] at h
      rw [hget] at h
      have hnotin : n ∉ rest := (List.nodup_cons.mp hnd).1
      rw [assignLoop_lookup_out st rest _ _ _ _ h n hnotin]
      rw [getFunction_updateFunc_self, hget]
      rfl
    · have hna : n ≠ a := by
        intro he
        subst he
        exact (List.nodup_cons.mp hnd).1 hr
      simp only [assignLoop] at h
      cases hg : getFunction fns a with
      | none => rw [hg] at h; cases h
      | some fa =>
        rw [hg] at h
        refine ih (List.nodup_cons.mp hnd).2 _ _ _ _ n func h hr ?_
        rw [getFunction_updateFunc_other a n _ hna]
        exact hget

/-- A successful lookup means the name is among the registry's keys. -/
theorem getFunction_mem_keys (fns : List (String × FuncRecord)) (n : String)
    (r : FuncRecord) (h : getFunction fns n = some r) : n ∈ fns.map Prod.fst := by
  unfold getFunction at h
  cases hf : fns.find? (fun kv => kv.1 == n) with
  | none => rw [hf] at h; cases h
  | some kv =>
    have hmem := List.mem_of_find?_eq_some hf
    have hpred := List.find?_some hf
    have : kv.1 = n := by simpa using hpred
    rw [← this]
    exact List.mem_map_of_mem Prod.fst hmem

/-- The google branch never touches the function records. -/
theorem applyGoogleBranch_functions (st : SlsState) :
    (applyGoogleBranch st).functions = st.functions := by
  unfold applyGoogleBranch
  split <;> rfl

/-- Inversion of a successful `copyExistingArtifacts` run into its three
stages. -/
theorem copyExistingArtifacts_ok_inv (st : SlsState) (disk : List String)
    (st2 : SlsState) (disk2 msgs : List String)
    (h : copyExistingArtifacts st disk = Except.ok (st2, disk2, msgs)) :
    ∃ fns2, assignLoop st (functionNamesOf st) st.functions [] = Except.ok (fns2, msgs) ∧
      st2 = applyGoogleBranch { st with functions := fns2 } ∧
      copyPass st disk = Except.ok disk2 := by
  unfold copyExistingArtifacts at h
  cases hc : copyPass st disk with
  | error e => rw [hc] at h; cases h
  | ok d2 =>
    rw [hc] at h
    cases ha : assignLoop st (functionNamesOf st) st.functions [] with
    | error e => rw [ha] at h; cases h
    | ok pr =>
      obtain ⟨fns2, msgs2⟩ := pr
      rw [ha] at h
      simp only [Except.ok.injEq, Prod.mk.injEq] at h
      obtain ⟨h1, h2, h3⟩ := h
      subst h2
      subst h3
      exact ⟨fns2, rfl, h1.symm, rfl⟩

/-- C1: under unified packaging every processed function is bound to the
service's deploy-stage path, under individual packaging each is bound to
its own, and distinct names yield distinct paths. -/
theorem distribution_modes (st : SlsState) (disk : List String) (st2 : SlsState)
    (disk2 msgs : List String) (f1 f2 : String) (r1 r2 : FuncRecord)
    (hopt : st.optionsFunction = none)
    (hnd : (st.functions.map Prod.fst).Nodup)
    (h : copyExistingArtifacts st disk = Except.ok (st2, disk2, msgs))
    (h1 : getFunction st.functions f1 = some r1)
    (h2 : getFunction st.functions f2 = some r2) :
    (st.individually = false →
        bindingOf st.version st2.functions f1
            = some (pathJoin ".serverless" (st.serviceName ++ ".zip")) ∧
        bindingOf st.version st2.functions f2
            = some (pathJoin ".serverless" (st.serviceName ++ ".zip"))) ∧
    (st.individually = true →
        bindingOf st.version st2.functions f1
            = some (pathJoin ".serverless" (f1 ++ ".zip")) ∧
        bindingOf st.version st2.functions f2
            = some (pathJoin ".serverless" (f2 ++ ".zip")) ∧
        (f1 ≠ f2 →
          pathJoin ".serverless" (f1 ++ ".zip") ≠ pathJoin ".serverless" (f2 ++ ".zip"))) := by
  obtain ⟨fns2, ha, hst, hcp⟩ := copyExistingArtifacts_ok_inv st disk st2 disk2 msgs h
  have hfns : st2.functions = fns2 := by rw [hst, applyGoogleBranch_functions]
  have hnames : functionNamesOf st = st.functions.map Prod.fst := by
    simp [functionNamesOf, hopt, getAllNodeFunctions]
  rw [hnames] at ha
  have hl1 := assignLoop_lookup_in st _ hnd _ _ _ _ f1 r1 ha (getFunction_mem_keys _ _ _ h1) h1
  have hl2 := assignLoop_lookup_in st _ hnd _ _ _ _ f2 r2 ha (getFunction_mem_keys _ _ _ h2) h2
  constructor
  · intro hmode
    rw [hmode] at hl1 hl2
    simp only [Bool.false_eq_true, if_false] at hl1 hl2
    constructor
    · unfold bindingOf
      rw [hfns, hl1]
      rw [Option.some_bind, recordedArtifact_set]
      simp [getArtifactLocations]
    · unfold bindingOf
      rw [hfns, hl2]
      rw [Option.some_bind, recordedArtifact_set]
      simp [getArtifactLocations]
  · intro hmode
    rw [hmode] at hl1 hl2
    simp only [if_true] at hl1 hl2
    refine ⟨?_, ?_, ?_⟩
    · unfold bindingOf
      rw [hfns, hl1]
      rw [Option.some_bind, recordedArtifact_set]
      simp [getArtifactLocations]
    · unfold bindingOf
      rw [hfns, hl2]
      rw [Option.some_bind, recordedArtifact_set]
      simp [getArtifactLocations]
    · intro hne heq
      exact hne (zipSuffix_inj f1 f2 (pathJoin_inj ".serverless" _ _ heq))

/-- A concrete unified-mode state used by witnesses. -/
def stW1 : SlsState :=
  ⟨[("f1", {}), ("f2", {})], "svc", false, false, none, ⟨1, 18, 0⟩, "out", none, false, false⟩

/-- The state `copyExistingArtifacts` produces from `stW1`. -/
def stW1res : SlsState :=
  { stW1 with
      functions :=
        [("f1", { artifact := none,
                  package := { artifact := some ".serverless/svc.zip", disable := none,
                               extra := [] } }),
         ("f2", { artifact := none,
                  package := { artifact := some ".serverless/svc.zip", disable := none,
                               extra := [] } })] }

/-- Witness for the distribution theorem on a concrete unified run. -/
theorem distribution_modes_witness :
    bindingOf stW1.version stW1res.functions "f1"
        = some (pathJoin ".serverless" ("svc" ++ ".zip")) ∧
    bindingOf stW1.version stW1res.functions "f2"
        = some (pathJoin ".serverless" ("svc" ++ ".zip")) :=
  (distribution_modes stW1 ["out/svc.zip"] stW1res [".serverless/svc.zip", "out/svc.zip"] []
      "f1" "f2" {} {} rfl (by decide) (by rfl) (by rfl) (by rfl)).1 rfl

/-- The `functionNames` list does not depend on the provider. -/
theorem functionNamesOf_google (st : SlsState) (b : Bool) :
    functionNamesOf { st with providerGoogle := b } = functionNamesOf st := rfl

/-- The copy pass does not depend on the provider. -/
theorem copyPass_google (st : SlsState) (b : Bool) (disk : List String) :
    copyPass { st with providerGoogle := b } disk = copyPass st disk := rfl

/-- The assignment pass does not depend on the provider. -/
theorem assignLoop_google (st : SlsState) (b : Bool) :
    ∀ (names : List String) (fns : List (String × FuncRecord)) (msgs : List String),
    assignLoop { st with providerGoogle := b } names fns msgs
      = assignLoop st names fns msgs := by
  intro names
  induction names with
  | nil => intro fns msgs; rfl
  | cons n rest ih =>
    intro fns msgs
    simp only [assignLoop]
    cases hg : getFunction fns n <;> simp [ih]

/-- C6: under unified packaging on google an additional service-level
binding equal to the per-function deploy-stage path is set; under
individual packaging or any other provider the service-level binding is
left unchanged; and the provider flag changes nothing else (the
per-function pass and the disk are identical with the provider branch
disabled — the binding is additive, not a replacement). -/
theorem google_unified_service_artifact (st : SlsState) (disk : List String)
    (st2 : SlsState) (disk2 msgs : List String)
    (h : copyExistingArtifacts st disk = Except.ok (st2, disk2, msgs)) :
    (st.individually = false → st.providerGoogle = true →
        st2.servicePackageArtifact
          = some (pathJoin ".serverless" (st.serviceName ++ ".zip"))) ∧
    (st.individually = true ∨ st.providerGoogle = false →
        st2.servicePackageArtifact = st.servicePackageArtifact) ∧
    (copyExistingArtifacts st disk).map (fun r => (r.1.functions, r.2.1, r.2.2)) =
      (copyExistingArtifacts { st with providerGoogle := false } disk).map
        (fun r => (r.1.functions, r.2.1, r.2.2)) := by
  obtain ⟨fns2, ha, hst, hcp⟩ := copyExistingArtifacts_ok_inv st disk st2 disk2 msgs h
  refine ⟨?_, ?_, ?_⟩
  · intro hi hg
    rw [hst]
    unfold applyGoogleBranch
    simp [hi, hg, getArtifactLocations]
  · intro hcase
    rw [hst]
    unfold applyGoogleBranch
    rcases hcase with hi | hg
    · simp [hi]
    · simp [hg]
  · unfold copyExistingArtifacts
    have e1 : copyPass { st with providerGoogle := false } disk = copyPass st disk := rfl
    have e2 : functionNamesOf ({ st with providerGoogle := false } : SlsState)
        = functionNamesOf st := rfl
    have e3 : ({ st with providerGoogle := false } : SlsState).functions = st.functions := rfl
    conv_rhs => rw [e1, e2, e3, assignLoop_google st false]
    cases hc2 : copyPass st disk with
    | error e => simp
    | ok d2 =>
      cases ha2 : assignLoop st (functionNamesOf st) st.functions [] with
      | error e => simp
      | ok pr =>
        obtain ⟨fns3, msgs3⟩ := pr
        simp [Except.map, applyGoogleBranch_functions]

/-- A concrete google unified-mode state used by witnesses. -/
def stW6 : SlsState :=
  ⟨[("f1", {})], "svc", false, true, none, ⟨1, 18, 0⟩, "out", none, false, false⟩

/-- The state `copyExistingArtifacts` produces from `stW6`. -/
def stW6res : SlsState :=
  { stW6 with
      functions :=
        [("f1", { artifact := none,
                  package := { artifact := some ".serverless/svc.zip", disable := none,
                               extra := [] } })],
      servicePackageArtifact := some ".serverless/svc.zip" }

/-- Witness for the google special case on a concrete run. -/
theorem google_unified_service_artifact_witness :
    stW6res.servicePackageArtifact = some (pathJoin ".serverless" ("svc" ++ ".zip")) :=
  (google_unified_service_artifact stW6 ["out/svc.zip"] stW6res
      [".serverless/svc.zip", "out/svc.zip"] [] (by rfl)).1 rfl rfl

/-- The failing input for C7: two known functions, individual packaging,
invoked with `-f f1`. -/
def stC7 : SlsState :=
  ⟨[("f1", {}), ("f2", {})], "svc", true, false, none, ⟨1, 18, 0⟩, "out", some "f1", false, false⟩

/-- C7 at the failing input: the run succeeds, `f1` is bound, but the
assignment pass — iterating the `-f`-restricted `functionNames` — leaves
`f2` without any binding, with its record untouched. -/
theorem assignment_skips_unselected_functions :
    (copyExistingArtifacts stC7 ["out/f1.zip"]).map
        (fun r => (bindingOf stC7.version r.1.functions "f1",
                   bindingOf stC7.version r.1.functions "f2",
                   getFunction r.1.functions "f2"))
      = Except.ok (some ".serverless/f1.zip", none, some {}) := by rfl

end Webpack
